import Mathlib

/-
Shallow embedding of the QuickSched data models
(`project/teachingassistant/models.py` and `project/laborganizer/models.py`).

Modelling conventions:
- Python strings are modelled as lists of characters (`Str`).
- ORM rows are plain structures; a "table" is a list of rows; Django's
  auto-generated integer primary key is an explicit `id` field where object
  identity matters (TA, via `ta` foreign keys).
- Mutating methods take the object (and the tables they touch) and return the
  updated values; a Python method that can raise an uncaught exception
  (`DoesNotExist`, `IndexError`, `ValueError`) is modelled as returning
  `Option`, with `none` for the exceptional exit.
- `datetime.now()` is an injected argument (a date/time pair).
-/

abbrev Str := List Char

/-- Python `'0' <= character <= '9'` test used by `TA.get_experience`. -/
def isDigitCh (c : Char) : Bool := '0' ≤ c && c ≤ '9'

/-- Numeric value of a decimal digit character. -/
def digitVal (c : Char) : Nat := c.toNat - 48

/-- Accumulator pass of Python `int(...)` over a decimal-digit string. -/
def charsToNatAux : Nat → Str → Nat
  | acc, [] => acc
  | acc, c :: cs => charsToNatAux (acc * 10 + digitVal c) cs

/-- Python `int(s)` on a string: succeeds on a nonempty all-digit string,
raises `ValueError` (modelled as `none`) otherwise.  (Sign and whitespace
handling are irrelevant to the labels this repository produces.) -/
def charsToNat? (s : Str) : Option Nat :=
  if s ≠ [] ∧ s.all isDigitCh then some (charsToNatAux 0 s) else none

/-- Decimal rendering of a natural number, fuel-based so that it reduces by
evaluation; `natToChars` supplies enough fuel. -/
def natToCharsAux : Nat → Nat → Str
  | 0, _ => []
  | fuel + 1, n =>
    if n < 10 then [Char.ofNat (48 + n)]
    else natToCharsAux fuel (n / 10) ++ [Char.ofNat (48 + n % 10)]

/-- Python `str(n)` for a natural number. -/
def natToChars (n : Nat) : Str := natToCharsAux (n + 1) n

/-- Python string comparison `s < t`: lexicographic on code points. -/
def strLt : Str → Str → Bool
  | [], [] => false
  | [], _ :: _ => true
  | _ :: _, [] => false
  | a :: as, b :: bs => if a < b then true else if b < a then false else strLt as bs

/-- `laborganizer.models.Semester`: `year` (IntegerField) and
`semester_time` (3-character CharField, one of SPR/SUM/FAL/WNT). -/
structure Semester where
  year : Nat
  semester_time : Str
  deriving DecidableEq, Repr

/-- `Semester.__str__`: `self.semester_time + str(self.year)`. -/
def Semester.str (self : Semester) : Str := self.semester_time ++ natToChars self.year

/-- `Semester.objects.get(year=..., semester_time=...)`: returns the unique
matching row; `DoesNotExist` (no match) and `MultipleObjectsReturned` are both
exceptional exits, modelled as `none`. -/
def semesterGet (db : List Semester) (year : Nat) (time : Str) : Option Semester :=
  match db.filter (fun s => decide (s.year = year ∧ s.semester_time = time)) with
  | [s] => some s
  | _ => none

/-- `laborganizer.models.Lab`.  All CharFields are `Str`; `semester` is a
nullable foreign key. -/
structure Lab where
  class_name : Str
  subject : Str
  catalog_id : Str
  course_id : Str
  «section» : Str
  days : Str
  facility_id : Str
  facility_building : Str
  instructor : Str
  start_time : Str
  end_time : Str
  staffed : Bool
  semester : Option Semester
  deriving DecidableEq, Repr

/-- `Lab.get_days`: `split_days = self.days.split(' ')` followed by
`', '.join(split_days)` — note the result is a single comma-space joined
string, not the split list itself. -/
def Lab.get_days (self : Lab) : Str :=
  let split_days := self.days.splitOn ' '
  [',', ' '].intercalate split_days

/-- `Lab.set_days`: stores `' '.join(days_list)` in the `days` field
(the `save()` round-trip is the returned object). -/
def Lab.set_days (self : Lab) (days_list : List Str) : Lab :=
  {self with days := [' '].intercalate days_list}

/-- `teachingassistant.models.ScorePair`.  The `schedule_key` column is a
CharField holding the decimal digits of the integer key that
`TA.assign_score` receives; since `TA.score_exists` always reads it back
through `int(...)`, the field is modelled directly by that integer value. -/
structure ScorePair where
  score_catalog_id : Str
  score : Int
  semester : Option Semester
  schedule_key : Int
  deriving DecidableEq, Repr

/-- `teachingassistant.models.TA`.  `id` is Django's implicit integer primary
key (TA rows are compared by it through foreign keys and `==`). -/
structure TA where
  id : Nat
  first_name : Str
  last_name : Str
  student_id : Str
  contracted : Bool
  experience : Str
  year : Str
  scores : List ScorePair
  assigned_semesters : List Semester
  assigned_labs : List Lab
  deriving DecidableEq, Repr

/-- The match condition scanned for by `TA.score_exists`:
`score.score_catalog_id == lab.catalog_id and score.semester == lab.semester
and int(score.schedule_key) == schedule_key`. -/
def scoreMatches (lab : Lab) (schedule_key : Int) (p : ScorePair) : Bool :=
  decide (p.score_catalog_id = lab.catalog_id) &&
    decide (p.semester = lab.semester) &&
    decide (p.schedule_key = schedule_key)

/-- `TA.score_exists`: linear scan of `self.scores.all()` returning the first
matching `ScorePair`, else `None`.  (The `index` counter in the source is
dead code.) -/
def TA.score_exists (self : TA) (lab : Lab) (schedule_key : Int) : Option ScorePair :=
  self.scores.find? (scoreMatches lab schedule_key)

/-- `TA.get_score`: the score of the matching pair, if it exists. -/
def TA.get_score (self : TA) (lab : Lab) (schedule_key : Int) : Option Int :=
  match self.score_exists lab schedule_key with
  | none => none
  | some score_pair => some score_pair.score

/-- In-place mutation `score_pair.score = score` of the object returned by
`score_exists`, i.e. of the first matching element of the score list. -/
def updateFirstScore : List ScorePair → (ScorePair → Bool) → Int → List ScorePair
  | [], _, _ => []
  | p :: ps, f, s => if f p then {p with score := s} :: ps else p :: updateFirstScore ps f s

/-- `TA.assign_score`: if no matching `ScorePair` exists, create one
(`ScorePair.objects.create` + `self.scores.add`, appending to the set);
otherwise overwrite the score of the found pair in place.  The trailing
`save()` calls are the returned object. -/
def TA.assign_score (self : TA) (score : Int) (lab : Lab) (schedule_key : Int) : TA :=
  match self.score_exists lab schedule_key with
  | none =>
    let new_score : ScorePair :=
      { score_catalog_id := lab.catalog_id
        score := score
        semester := lab.semester
        schedule_key := schedule_key }
    {self with scores := self.scores ++ [new_score]}
  | some _ =>
    {self with scores := updateFirstScore self.scores (scoreMatches lab schedule_key) score}

/-- Per-course character classification inside `TA.get_experience`: digits are
appended to the catalog id, any other non-space character to the subject. -/
def classifyCourse (course : Str) : Str × Str :=
  course.foldl
    (fun acc character =>
      if '0' ≤ character ∧ character ≤ '9' then (acc.1, acc.2 ++ [character])
      else if character ≠ ' ' then (acc.1 ++ [character], acc.2)
      else acc)
    ([], [])

/-- `TA.get_experience`: split `self.experience` on commas and classify each
course token into a (subject, catalog_id) pair. -/
def TA.get_experience (self : TA) : List (Str × Str) :=
  (self.experience.splitOn ',').map classifyCourse

/-- Modelled from the spec: `Lab.unassign_ta` is called by
`TA.assign_to_lab` but is not present under `src/` (no such method exists on
`Lab` in `laborganizer/models.py`).  Per the spec it "unassigns the lab from
whichever TA (if any) among `all_tas` currently holds it" and persists the
displaced TA; removing the lab from every TA's assigned set realises exactly
that (TAs not holding the lab are unchanged). -/
def Lab.unassign_ta (lab : Lab) (all_tas : List TA) : List TA :=
  all_tas.map (fun ta =>
    {ta with assigned_labs := ta.assigned_labs.filter (fun l => decide (l ≠ lab))})

/-- `TA.assign_to_lab`: first `lab.unassign_ta(all_tas)`, then
`self.assigned_labs.add(lab)` and `self.save()`.  `taId` is the primary key of
the calling TA; the `add` on the many-to-many set is modelled by appending
(after `unassign_ta` the lab is not in any assigned set). -/
def TA.assign_to_lab (taId : Nat) (lab : Lab) (all_tas : List TA) : List TA :=
  let all' := lab.unassign_ta all_tas
  all'.map (fun ta =>
    if ta.id = taId then {ta with assigned_labs := ta.assigned_labs ++ [lab]} else ta)

/-- `TA.is_assigned_to_semester`: linear scan with `==` (row equality). -/
def TA.is_assigned_to_semester (self : TA) (semester_to_check : Semester) : Bool :=
  self.assigned_semesters.any (fun semester => decide (semester = semester_to_check))

/-- `TA.get_assigned_labs(semester)`: resolve the semester argument
(`semester['time']`, `semester['year']`) through `Semester.objects.get`,
returning `None` on `DoesNotExist`; otherwise collect the assigned labs whose
`semester` foreign key equals the resolved row. -/
def TA.get_assigned_labs (self : TA) (db : List Semester) (time : Str) (year : Nat) :
    Option (List Lab) :=
  match semesterGet db year time with
  | none => none
  | some semester =>
    some (self.assigned_labs.filter (fun lab => decide (lab.semester = some semester)))

/-- Label resolution inside `TA.update_semesters`: `year = semester[3:]`,
`time = semester[:3]`, then `Semester.objects.get(year=year,
semester_time=time)` (the ORM coerces the year string to an integer; a
non-numeric year string raises, modelled as `none`). -/
def resolveSemester (db : List Semester) (label : Str) : Option Semester :=
  match charsToNat? (label.drop 3) with
  | none => none
  | some y => semesterGet db y (label.take 3)

/-- First loop of `TA.update_semesters`: resolve each label in order and add
it to the assigned set when `is_assigned_to_semester` does not already hold.
A failing lookup aborts the call (uncaught `DoesNotExist`). -/
def addSemLoop (db : List Semester) : TA → List Str → Option TA
  | ta, [] => some ta
  | ta, label :: rest =>
    match resolveSemester db label with
    | none => none
    | some semester =>
      let ta' :=
        if ta.is_assigned_to_semester semester then ta
        else {ta with assigned_semesters := ta.assigned_semesters ++ [semester]}
      addSemLoop db ta' rest

/-- `TA.update_semesters`: the add loop above, then the removal loop — every
currently assigned semester whose `str(...)` rendering is absent from the
input list is removed (the loop iterates over a snapshot, so it is a filter). -/
def TA.update_semesters (self : TA) (db : List Semester) (semester_list : List Str) :
    Option TA :=
  match addSemLoop db self semester_list with
  | none => none
  | some ta' =>
    some {ta' with assigned_semesters :=
      ta'.assigned_semesters.filter (fun semester => decide (semester.str ∈ semester_list))}

/-- `teachingassistant.models.ClassTime`.  `ta` is the foreign key to the
owning TA's primary key. -/
structure ClassTime where
  ta : Nat
  start_time : Str
  end_time : Str
  days : Str
  semester_name : Str
  deriving DecidableEq, Repr

/-- `ClassTime.join_days`: `','.join(days_list)`. -/
def ClassTime.join_days (days_list : List Str) : Str := [','].intercalate days_list

/-- `ClassTime.get_days`: `self.days.split(',')`. -/
def ClassTime.get_days (self : ClassTime) : List Str := self.days.splitOn ','

/-- `teachingassistant.models.Availability`: a one-to-one aggregate owning a
many-to-many set of `ClassTime` rows. -/
structure Availability where
  ta : Nat
  class_times : List ClassTime
  deriving DecidableEq, Repr

/-- The first loop of `Availability.delete_times`: iterate over a snapshot of
`self.class_times.all()` and `remove` each element from the relation. -/
def removeAllTimes : List ClassTime → List ClassTime → List ClassTime
  | cts, [] => cts
  | cts, t :: ts => removeAllTimes (cts.filter (fun x => decide (x ≠ t))) ts

/-- `Availability.delete_times`: empty the `class_times` relation, then
`ClassTime.objects.filter(ta=self.ta).delete()` — delete every `ClassTime`
row whose `ta` foreign key is this availability's TA, from the whole table. -/
def Availability.delete_times (self : Availability) (db : List ClassTime) :
    Availability × List ClassTime :=
  let remaining := removeAllTimes self.class_times self.class_times
  ({self with class_times := remaining}, db.filter (fun ct => decide (ct.ta ≠ self.ta)))

/-- The creation loop of `Availability.edit_time`: for each `new_time`, read
`new_time[0]`, `new_time[1]` and `semester_list[semester_index]` (an
out-of-range index raises `IndexError`, modelled as `none`), and build the new
`ClassTime` with `days = ClassTime.join_days(new_time[2:])`. -/
def buildClassTimes (ta : Nat) (semester_list : List Str) :
    List (List Str) → Nat → Option (List ClassTime)
  | [], _ => some []
  | new_time :: rest, semester_index =>
    match new_time.get? 0, new_time.get? 1, semester_list.get? semester_index with
    | some st, some en, some sem =>
      match buildClassTimes ta semester_list rest (semester_index + 1) with
      | some cts =>
        some ({ ta := ta
                start_time := st
                end_time := en
                days := ClassTime.join_days (new_time.drop 2)
                semester_name := sem } :: cts)
      | none => none
    | _, _, _ => none

/-- `Availability.edit_time`: `delete_times`, then create one `ClassTime` per
entry of `time_list` (`self.class_times.create(...)` both inserts the row and
adds it to the relation).  An `IndexError` anywhere in the loop is an
exceptional exit (`none`). -/
def Availability.edit_time (self : Availability) (db : List ClassTime)
    (time_list : List (List Str)) (semester_list : List Str) :
    Option (Availability × List ClassTime) :=
  let cleared := self.delete_times db
  match buildClassTimes self.ta semester_list time_list 0 with
  | none => none
  | some new_times =>
    some ({cleared.1 with class_times := cleared.1.class_times ++ new_times},
      cleared.2 ++ new_times)

/-- `Availability.get_class_times`: the `f'{start}-{end}'` renderings. -/
def Availability.get_class_times (self : Availability) : List Str :=
  self.class_times.map (fun t => t.start_time ++ ['-'] ++ t.end_time)

/-- Calendar date as produced by `datetime.strftime('%m/%d/%Y')` input. -/
structure DateD where
  month : Nat
  day : Nat
  year : Nat
  deriving DecidableEq, Repr

/-- Wall-clock time as produced by `datetime.strftime('%H:%M')` input. -/
structure TimeD where
  hour : Nat
  minute : Nat
  deriving DecidableEq, Repr

/-- `laborganizer.models.AllowTAEdit` row: flag plus date/time threshold. -/
structure AllowTAEdit where
  allowed : Bool
  date : DateD
  time : TimeD
  deriving DecidableEq, Repr

/-- A Django model instance together with its database row: attribute
assignments mutate `mem` only; `Model.save()` copies `mem` into `db`. -/
structure GateState where
  mem : AllowTAEdit
  db : AllowTAEdit
  deriving DecidableEq, Repr

/-- `Model.save()` for the gate record: persist the in-memory instance. -/
def AllowTAEdit.save (st : GateState) : GateState := {st with db := st.mem}

/-- Zero-padding to a fixed width, as in `strftime` numeric directives. -/
def padZeros (w : Nat) (s : Str) : Str := List.replicate (w - s.length) '0' ++ s

/-- `strftime('%m/%d/%Y')`. -/
def fmtDate (d : DateD) : Str :=
  padZeros 2 (natToChars d.month) ++ ['/'] ++ padZeros 2 (natToChars d.day) ++
    ['/'] ++ padZeros 4 (natToChars d.year)

/-- `strftime('%H:%M')`. -/
def fmtTime (t : TimeD) : Str :=
  padZeros 2 (natToChars t.hour) ++ [':'] ++ padZeros 2 (natToChars t.minute)

/-- `AllowTAEdit.is_allowed`: format `datetime.now()` (the injected
`now_day`/`now_time`) and the stored threshold, compare the two formatted
strings with Python `<`, set `self.allowed` accordingly and return it.  The
method assigns the attribute but never calls `save()`. -/
def AllowTAEdit.is_allowed (now_day : DateD) (now_time : TimeD) (st : GateState) :
    Bool × GateState :=
  let day := fmtDate now_day
  let time := fmtTime now_time
  let saved_day := fmtDate st.mem.date
  let saved_time := fmtTime st.mem.time
  if strLt day saved_day || strLt time saved_time then
    (true, {st with mem := {st.mem with allowed := true}})
  else
    (false, {st with mem := {st.mem with allowed := false}})

/-- The per-index rows that a successful `edit_time` call creates: one
`ClassTime` per `time_list` entry, paired positionally with `semester_list`
(the spec's description of the creation loop). -/
def mkRows (ta : Nat) (tl : List (List Str)) (sl : List Str) : List ClassTime :=
  (tl.zip sl).map (fun pr =>
    { ta := ta
      start_time := pr.1.headD []
      end_time := (pr.1.drop 1).headD []
      days := ClassTime.join_days (pr.1.drop 2)
      semester_name := pr.2 })

/-- A blank `Lab` row used as the receiver in concrete instantiations. -/
def lab0 : Lab :=
  { class_name := []
    subject := []
    catalog_id := []
    course_id := []
    «section» := []
    days := []
    facility_id := []
    facility_building := []
    instructor := []
    start_time := []
    end_time := []
    staffed := false
    semester := none }

/-- A blank `TA` row (primary key 1) for concrete instantiations. -/
def ta0 : TA :=
  { id := 1
    first_name := []
    last_name := []
    student_id := []
    contracted := false
    experience := []
    year := []
    scores := []
    assigned_semesters := []
    assigned_labs := [] }

/-- Spring-2022 and Fall-2022 semester rows. -/
def dbSem0 : List Semester := [⟨2022, "SPR".toList⟩, ⟨2022, "FAL".toList⟩]

/-- Gate record stored at 05/01/2022 23:59 with `allowed = False`, its
database row in sync with the instance. -/
def gate0 : GateState :=
  { mem := { allowed := false, date := ⟨5, 1, 2022⟩, time := ⟨23, 59⟩ }
    db := { allowed := false, date := ⟨5, 1, 2022⟩, time := ⟨23, 59⟩ } }

/-- A second TA row (primary key 2) currently holding `lab0`. -/
def taB : TA := {ta0 with id := 2, assigned_labs := [lab0]}

/-- A TA row whose experience field is the string from the spec's example. -/
def expTA : TA := {ta0 with experience := "CS126,MAT305".toList}

/-- An availability aggregate for TA 1 with no class times yet. -/
def avA : Availability := ⟨1, []⟩

/-- Two web-form time entries: start, end, then a variable-length days tail. -/
def twoTimes : List (List Str) :=
  [["08:00".toList, "09:00".toList, "Mon".toList, "Wed".toList],
   ["10:00".toList, "11:00".toList, "Tue".toList]]

/-- Two semester labels matching `twoTimes` positionally. -/
def twoSems : List Str := ["FAL2022".toList, "SPR2022".toList]

/- ------------------------------------------------------------------ -/
/- Lemmas about the decimal string machinery.                          -/
/- ------------------------------------------------------------------ -/
/- ------------------------------------------------------------------ -/

theorem charsToNatAux_nil (acc : Nat) : charsToNatAux acc [] = acc := rfl

theorem charsToNatAux_cons (acc : Nat) (c : Char) (cs : Str) :
    charsToNatAux acc (c :: cs) = charsToNatAux (acc * 10 + digitVal c) cs := rfl

theorem natToCharsAux_succ (fuel n : Nat) :
    natToCharsAux (fuel + 1) n =
      if n < 10 then [Char.ofNat (48 + n)]
      else natToCharsAux fuel (n / 10) ++ [Char.ofNat (48 + n % 10)] := rfl

theorem charsToNatAux_append (s t : Str) :
    ∀ acc, charsToNatAux acc (s ++ t) = charsToNatAux (charsToNatAux acc s) t := by
  induction s with
  | nil => intro acc; rfl
  | cons c cs ih => intro acc; exact ih (acc * 10 + digitVal c)

theorem natToCharsAux_congr :
    ∀ n fuel fuel', n < fuel → n < fuel' → natToCharsAux fuel n = natToCharsAux fuel' n := by
  intro n
  induction n using Nat.strong_induction_on with
  | _ n ih =>
    intro fuel fuel' hf hf'
    match fuel, fuel' with
    | f + 1, f' + 1 =>
      rw [natToCharsAux_succ, natToCharsAux_succ]
      by_cases h10 : n < 10
      · rw [if_pos h10, if_pos h10]
      · have hdiv : n / 10 < n := Nat.div_lt_self (by omega) (by omega)
        rw [if_neg h10, if_neg h10, ih (n / 10) hdiv f f' (by omega) (by omega)]

theorem natToChars_eq (n : Nat) :
    natToChars n =
      if n < 10 then [Char.ofNat (48 + n)]
      else natToChars (n / 10) ++ [Char.ofNat (48 + n % 10)] := by
  show natToCharsAux (n + 1) n = _
  rw [natToCharsAux_succ]
  by_cases h10 : n < 10
  · rw [if_pos h10, if_pos h10]
  · have hdiv : n / 10 < n := Nat.div_lt_self (by omega) (by omega)
    rw [if_neg h10, if_neg h10,
      natToCharsAux_congr (n / 10) n (n / 10 + 1) (by omega) (by omega)]
    rfl

theorem isDigitCh_ofNat (d : Nat) (h : d < 10) : isDigitCh (Char.ofNat (48 + d)) = true := by
  interval_cases d <;> decide

theorem digitVal_ofNat (d : Nat) (h : d < 10) : digitVal (Char.ofNat (48 + d)) = d := by
  interval_cases d <;> decide

theorem natToChars_ne_nil (n : Nat) : natToChars n ≠ [] := by
  rw [natToChars_eq]
  by_cases h10 : n < 10 <;> simp [h10]

theorem natToChars_all_digits (n : Nat) : (natToChars n).all isDigitCh = true := by
  induction n using Nat.strong_induction_on with
  | _ n ih =>
    rw [natToChars_eq]
    by_cases h10 : n < 10
    · rw [if_pos h10]
      simp [isDigitCh_ofNat n h10]
    · have hdiv : n / 10 < n := Nat.div_lt_self (by omega) (by omega)
      rw [if_neg h10, List.all_append, ih (n / 10) hdiv]
      simp [isDigitCh_ofNat (n % 10) (Nat.mod_lt n (by omega))]

theorem charsToNatAux_natToChars (n : Nat) : charsToNatAux 0 (natToChars n) = n := by
  induction n using Nat.strong_induction_on with
  | _ n ih =>
    rw [natToChars_eq]
    by_cases h10 : n < 10
    · rw [if_pos h10, charsToNatAux_cons, charsToNatAux_nil, digitVal_ofNat n h10]
      omega
    · have hdiv : n / 10 < n := Nat.div_lt_self (by omega) (by omega)
      rw [if_neg h10, charsToNatAux_append, ih (n / 10) hdiv, charsToNatAux_cons,
        charsToNatAux_nil, digitVal_ofNat (n % 10) (Nat.mod_lt n (by omega))]
      omega

theorem charsToNat?_natToChars (n : Nat) : charsToNat? (natToChars n) = some n := by
  unfold charsToNat?
  rw [if_pos ⟨natToChars_ne_nil n, natToChars_all_digits n⟩, charsToNatAux_natToChars]

/- ------------------------------------------------------------------ -/
/- Availability / ClassTime lemmas.                                    -/
/- ------------------------------------------------------------------ -/

theorem removeAllTimes_eq_nil :
    ∀ (snapshot cts : List ClassTime), (∀ t ∈ cts, t ∈ snapshot) →
      removeAllTimes cts snapshot = [] := by
  intro snapshot
  induction snapshot with
  | nil =>
    intro cts h
    have : cts = [] := List.eq_nil_iff_forall_not_mem.2 (fun t ht => List.not_mem_nil t (h t ht))
    rw [this]
    rfl
  | cons t ts ih =>
    intro cts h
    show removeAllTimes (cts.filter (fun x => decide (x ≠ t))) ts = []
    apply ih
    intro x hx
    have hx' := List.mem_filter.1 hx
    have hxn : x ≠ t := by simpa using hx'.2
    have := h x hx'.1
    rcases List.mem_cons.1 this with h1 | h1
    · exact absurd h1 hxn
    · exact h1

/-- Claim C10: `delete_times` empties the availability's `class_times`
relation and deletes every `ClassTime` row whose `ta` foreign key is this
availability's TA — whether or not the row was in the `class_times` set —
while leaving every row of every other TA in the table unchanged. -/
theorem delete_times_frame (av : Availability) (db : List ClassTime) :
    (av.delete_times db).1.class_times = [] ∧
    (av.delete_times db).1.ta = av.ta ∧
    ∀ ct : ClassTime, (ct ∈ (av.delete_times db).2 ↔ ct ∈ db ∧ ct.ta ≠ av.ta) := by
  refine ⟨?_, rfl, ?_⟩
  · show removeAllTimes av.class_times av.class_times = []
    exact removeAllTimes_eq_nil av.class_times av.class_times (fun t ht => ht)
  · intro ct
    show ct ∈ db.filter (fun ct => decide (ct.ta ≠ av.ta)) ↔ _
    rw [List.mem_filter]
    simp

/- ------------------------------------------------------------------ -/
/- Lab days encoding (claim C6).                                       -/
/- ------------------------------------------------------------------ -/

/-- Claim C6, counterexample: with D = ["Mon", "Wed"], `get_days` after
`set_days(D)` yields the single string "Mon, Wed" — not the list D: it is
not the stored space-encoding of D, and splitting it on the encoding
delimiter does not recover D either.  So decode(encode(D)) == D fails for
the code's decode (`get_days`). -/
theorem lab_days_roundtrip_cex :
    Lab.get_days (Lab.set_days lab0 ["Mon".toList, "Wed".toList]) = "Mon, Wed".toList ∧
    Lab.get_days (Lab.set_days lab0 ["Mon".toList, "Wed".toList]) ≠
      [' '].intercalate ["Mon".toList, "Wed".toList] ∧
    (Lab.get_days (Lab.set_days lab0 ["Mon".toList, "Wed".toList])).splitOn ' ' ≠
      ["Mon".toList, "Wed".toList] := by
  refine ⟨?_, ?_, ?_⟩ <;> decide

/-- Claim C6, amended: for every nonempty list D of distinct nonempty
weekday tokens without embedded spaces, `set_days(D)` stores the
space-join of D and splitting that stored field on a space recovers D;
`get_days`, however, returns the comma-space-joined display string
`', '.join(D)`, not the list D. -/
theorem lab_days_roundtrip_amended (lab : Lab) (D : List Str)
    (hne : D ≠ []) (_hnodup : D.Nodup)
    (htok : ∀ tok ∈ D, tok ≠ [] ∧ ' ' ∉ tok) :
    ((lab.set_days D).days).splitOn ' ' = D ∧
    (lab.set_days D).get_days = [',', ' '].intercalate D := by
  have hsp : ∀ tok ∈ D, ' ' ∉ tok := fun tok ht => (htok tok ht).2
  have h1 : (([' '].intercalate D : Str)).splitOn ' ' = D :=
    List.splitOn_intercalate D ' ' hsp hne
  constructor
  · exact h1
  · show [',', ' '].intercalate ((([' '].intercalate D : Str)).splitOn ' ') = _
    rw [h1]

/-- Witness for the amended claim C6 at D = ["Mon", "Wed"]. -/
theorem lab_days_roundtrip_amended_witness :
    ((lab0.set_days ["Mon".toList, "Wed".toList]).days).splitOn ' ' =
      ["Mon".toList, "Wed".toList] ∧
    (lab0.set_days ["Mon".toList, "Wed".toList]).get_days =
      [',', ' '].intercalate ["Mon".toList, "Wed".toList] :=
  lab_days_roundtrip_amended lab0 ["Mon".toList, "Wed".toList]
    (by decide) (by decide) (by decide)

/- ------------------------------------------------------------------ -/
/- Edit-window gate (claim C7).                                        -/
/- ------------------------------------------------------------------ -/

/-- Claim C7, counterexample: on the same calendar day, with the stored
time 23:59 and current time 08:00, `is_allowed` returns true and assigns
the in-memory `allowed` attribute — but it never calls `save()`, so the
stored database row still has `allowed = False`: the recomputation is not
persisted to the stored field as the claim asserts. -/
theorem is_allowed_persist_cex :
    (AllowTAEdit.is_allowed ⟨5, 1, 2022⟩ ⟨8, 0⟩ gate0).1 = true ∧
    ((AllowTAEdit.is_allowed ⟨5, 1, 2022⟩ ⟨8, 0⟩ gate0).2).mem.allowed = true ∧
    ((AllowTAEdit.is_allowed ⟨5, 1, 2022⟩ ⟨8, 0⟩ gate0).2).db.allowed = false := by
  refine ⟨?_, ?_, ?_⟩ <;> decide

/-- Claim C7, amended: `is_allowed` formats the current and the stored
date/time as `MM/DD/YYYY` and `HH:MM` strings and returns true exactly when
the current date string is lexically below the stored date string or the
current time string is lexically below the stored time string; it assigns
the in-memory `allowed` attribute to the returned value but does not call
`save()`, so the database row is left unchanged.  On the same calendar day
with stored time "23:59" and current time "08:00" it returns true. -/
theorem is_allowed_gate_behaviour :
    (∀ (nd : DateD) (nt : TimeD) (st : GateState),
      (AllowTAEdit.is_allowed nd nt st).1 =
        (strLt (fmtDate nd) (fmtDate st.mem.date) ||
          strLt (fmtTime nt) (fmtTime st.mem.time)) ∧
      ((AllowTAEdit.is_allowed nd nt st).2).mem =
        {st.mem with allowed := (AllowTAEdit.is_allowed nd nt st).1} ∧
      ((AllowTAEdit.is_allowed nd nt st).2).db = st.db) ∧
    (AllowTAEdit.is_allowed ⟨5, 1, 2022⟩ ⟨8, 0⟩ gate0).1 = true := by
  constructor
  · intro nd nt st
    cases hb : strLt (fmtDate nd) (fmtDate st.mem.date) ||
        strLt (fmtTime nt) (fmtTime st.mem.time) with
    | false => simp [AllowTAEdit.is_allowed, hb]
    | true => simp [AllowTAEdit.is_allowed, hb]
  · decide

/- ------------------------------------------------------------------ -/
/- Lab assignment (claim C1).                                          -/
/- ------------------------------------------------------------------ -/

/-- Claim C1: if the collection `all_tas` contains the calling TA `t`
(exactly one row with t's primary key), then after `assign_to_lab(t, lab,
all_tas)` exactly one TA in the collection has the lab in its assigned
set, and every TA holding the lab is t — any previous holder was
displaced. -/
theorem assign_to_lab_exactly_one (t : TA) (lab : Lab) (all_tas : List TA)
    (hone : all_tas.countP (fun ta => decide (ta.id = t.id)) = 1) :
    (TA.assign_to_lab t.id lab all_tas).countP
      (fun ta => decide (lab ∈ ta.assigned_labs)) = 1 ∧
    ∀ ta ∈ TA.assign_to_lab t.id lab all_tas, lab ∈ ta.assigned_labs → ta.id = t.id := by
  constructor
  · unfold TA.assign_to_lab Lab.unassign_ta
    rw [List.map_map, List.countP_map, ← hone]
    apply List.countP_congr
    intro ta _
    by_cases hid : ta.id = t.id <;>
      simp [Function.comp, hid, List.mem_append, List.mem_filter]
  · intro ta hta hlab
    unfold TA.assign_to_lab Lab.unassign_ta at hta
    rw [List.map_map] at hta
    obtain ⟨ta0, _, rfl⟩ := List.mem_map.1 hta
    by_cases hid : ta0.id = t.id
    · simp [Function.comp, hid]
    · exfalso
      simp [Function.comp, hid, List.mem_filter] at hlab

/-- Witness for claim C1: TA 1 takes `lab0` from TA 2, leaving exactly one
holder. -/
theorem assign_to_lab_exactly_one_witness :
    (TA.assign_to_lab ta0.id lab0 [ta0, taB]).countP
      (fun ta => decide (lab0 ∈ ta.assigned_labs)) = 1 ∧
    ∀ ta ∈ TA.assign_to_lab ta0.id lab0 [ta0, taB],
      lab0 ∈ ta.assigned_labs → ta.id = ta0.id :=
  assign_to_lab_exactly_one ta0 lab0 [ta0, taB] (by decide)

/- ------------------------------------------------------------------ -/
/- Score upsert (claim C2).                                            -/
/- ------------------------------------------------------------------ -/

theorem updateFirstScore_append (l l' : List ScorePair) (f : ScorePair → Bool) (s : Int)
    (h : ∀ p ∈ l, f p = false) :
    updateFirstScore (l ++ l') f s = l ++ updateFirstScore l' f s := by
  induction l with
  | nil => rfl
  | cons p ps ih =>
    have hp : f p = false := h p (List.mem_cons_self p ps)
    have ih' := ih (fun q hq => h q (List.mem_cons_of_mem p hq))
    show (if f p then {p with score := s} :: (ps ++ l')
          else p :: updateFirstScore (ps ++ l') f s) = _
    rw [hp]
    show p :: updateFirstScore (ps ++ l') f s = p :: (ps ++ updateFirstScore l' f s)
    rw [ih']

theorem updateFirstScore_singleton (p : ScorePair) (f : ScorePair → Bool) (s : Int)
    (h : f p = true) : updateFirstScore [p] f s = [{p with score := s}] := by
  show (if f p then ({p with score := s} : ScorePair) :: []
        else p :: updateFirstScore [] f s) = [{p with score := s}]
  rw [h, if_pos rfl]

theorem assign_score_eq_of_none (ta : TA) (s : Int) (lab : Lab) (key : Int)
    (h : ta.scores.find? (scoreMatches lab key) = none) :
    ta.assign_score s lab key = {ta with scores := ta.scores ++
      [{ score_catalog_id := lab.catalog_id, score := s,
         semester := lab.semester, schedule_key := key }]} := by
  unfold TA.assign_score TA.score_exists
  rw [h]

theorem assign_score_eq_of_some (ta : TA) (s : Int) (lab : Lab) (key : Int) (q : ScorePair)
    (h : ta.scores.find? (scoreMatches lab key) = some q) :
    ta.assign_score s lab key =
      {ta with scores := updateFirstScore ta.scores (scoreMatches lab key) s} := by
  unfold TA.assign_score TA.score_exists
  rw [h]

/-- Claim C2: starting from a TA with no ScorePair for the combination
(lab.catalog_id, lab.semester, schedule_key), calling `assign_score` twice
with two different scores for that combination leaves exactly one matching
ScorePair attached to the TA, and its score is the second value: the first
call creates the pair, the second overwrites it in place. -/
theorem assign_score_upsert (ta : TA) (s1 s2 : Int) (lab : Lab) (key : Int)
    (_hdiff : s1 ≠ s2)
    (h0 : ta.scores.countP (scoreMatches lab key) = 0) :
    ((ta.assign_score s1 lab key).assign_score s2 lab key).scores.countP
      (scoreMatches lab key) = 1 ∧
    ∀ p ∈ ((ta.assign_score s1 lab key).assign_score s2 lab key).scores,
      scoreMatches lab key p = true → p.score = s2 := by
  have hall : ∀ p ∈ ta.scores, scoreMatches lab key p = false := by
    intro p hp
    have h1 := List.countP_eq_zero.1 h0 p hp
    simpa using h1
  have hnew : scoreMatches lab key
      ({ score_catalog_id := lab.catalog_id, score := s1,
         semester := lab.semester, schedule_key := key } : ScorePair) = true := by
    simp [scoreMatches]
  have hfind0 : ta.scores.find? (scoreMatches lab key) = none :=
    List.find?_eq_none.2 (by intro p hp; simp [hall p hp])
  have hstep1 := assign_score_eq_of_none ta s1 lab key hfind0
  have hfind1 : (ta.scores ++
      [({ score_catalog_id := lab.catalog_id, score := s1,
          semester := lab.semester, schedule_key := key } : ScorePair)]).find?
        (scoreMatches lab key) =
      some { score_catalog_id := lab.catalog_id, score := s1,
             semester := lab.semester, schedule_key := key } := by
    rw [List.find?_append, hfind0]
    simp [List.find?_cons_of_pos, hnew]
  have hstep2 : (ta.assign_score s1 lab key).assign_score s2 lab key =
      {ta with scores := ta.scores ++
        [{ score_catalog_id := lab.catalog_id, score := s2,
           semester := lab.semester, schedule_key := key }]} := by
    rw [hstep1, assign_score_eq_of_some _ s2 lab key _ hfind1]
    show ({ta with scores := (updateFirstScore
      (ta.scores ++
        [{ score_catalog_id := lab.catalog_id, score := s1,
           semester := lab.semester, schedule_key := key }])
      (scoreMatches lab key) s2)} : TA) = _
    rw [updateFirstScore_append ta.scores _ _ s2 hall,
      updateFirstScore_singleton _ _ _ hnew]
  rw [hstep2]
  have hnew2 : scoreMatches lab key
      ({ score_catalog_id := lab.catalog_id, score := s2,
         semester := lab.semester, schedule_key := key } : ScorePair) = true := by
    simp [scoreMatches]
  constructor
  · show (ta.scores ++ _).countP (scoreMatches lab key) = 1
    rw [List.countP_append, h0, List.countP_cons]
    simp [hnew2]
  · intro p hp hm
    have hp' : p ∈ ta.scores ++
        [({ score_catalog_id := lab.catalog_id, score := s2,
            semester := lab.semester, schedule_key := key } : ScorePair)] := hp
    rcases List.mem_append.1 hp' with hmem | hmem
    · exact absurd hm (by simp [hall p hmem])
    · rw [List.mem_singleton.1 hmem]

/-- Witness for claim C2: two upserts on a blank TA for key 7. -/
theorem assign_score_upsert_witness :
    ((ta0.assign_score 3 lab0 7).assign_score 5 lab0 7).scores.countP
      (scoreMatches lab0 7) = 1 ∧
    ∀ p ∈ ((ta0.assign_score 3 lab0 7).assign_score 5 lab0 7).scores,
      scoreMatches lab0 7 p = true → p.score = 5 :=
  assign_score_upsert ta0 3 5 lab0 7 (by decide) (by decide)

/- ------------------------------------------------------------------ -/
/- Experience decoding (claim C5).                                     -/
/- ------------------------------------------------------------------ -/

theorem isDigitCh_iff (c : Char) : isDigitCh c = true ↔ ('0' ≤ c ∧ c ≤ '9') := by
  simp [isDigitCh]

theorem classify_foldl (course : Str) :
    ∀ a b : Str,
      course.foldl
        (fun acc character =>
          if '0' ≤ character ∧ character ≤ '9' then (acc.1, acc.2 ++ [character])
          else if character ≠ ' ' then (acc.1 ++ [character], acc.2)
          else acc)
        (a, b) =
      (a ++ course.filter (fun c => !(isDigitCh c) && c != ' '),
       b ++ course.filter isDigitCh) := by
  induction course with
  | nil => intro a b; simp
  | cons c cs ih =>
    intro a b
    rw [List.foldl_cons]
    by_cases hd : '0' ≤ c ∧ c ≤ '9'
    · have hdB : isDigitCh c = true := (isDigitCh_iff c).2 hd
      rw [if_pos hd, ih]
      simp [List.filter_cons, hdB, List.append_assoc]
    · have hdB : isDigitCh c = false :=
        Bool.eq_false_iff.2 (fun hcontra => hd ((isDigitCh_iff c).1 hcontra))
      rw [if_neg hd]
      by_cases hsp : c ≠ ' '
      · rw [if_pos hsp, ih]
        simp [List.filter_cons, hdB, hsp, List.append_assoc]
      · rw [if_neg hsp]
        push_neg at hsp
        subst hsp
        rw [ih]
        simp [List.filter_cons, hdB]

theorem classifyCourse_filters (course : Str) :
    classifyCourse course =
      (course.filter (fun c => !(isDigitCh c) && c != ' '), course.filter isDigitCh) := by
  unfold classifyCourse
  rw [classify_foldl course [] []]
  simp

/-- Claim C5: for a TA whose experience field is the comma-join of a list of
tokens (none containing a comma), `get_experience` returns, in order, one
(subject, catalog_id) pair per token, where the catalog id collects exactly
the digit characters of the token and the subject collects exactly the
non-digit non-space characters, independently of their positions. -/
theorem get_experience_decodes (ta : TA) (tokens : List Str)
    (hexp : ta.experience = [','].intercalate tokens)
    (hne : tokens ≠ [])
    (hnc : ∀ tok ∈ tokens, ',' ∉ tok) :
    ta.get_experience = tokens.map (fun tok =>
      (tok.filter (fun c => !(isDigitCh c) && c != ' '), tok.filter isDigitCh)) := by
  unfold TA.get_experience
  rw [hexp, List.splitOn_intercalate tokens ',' hnc hne]
  rw [show classifyCourse = (fun tok : Str =>
    (tok.filter (fun c => !(isDigitCh c) && c != ' '), tok.filter isDigitCh))
    from funext classifyCourse_filters]

/-- Witness for claim C5: the spec's example "CS126,MAT305". -/
theorem get_experience_decodes_witness :
    expTA.get_experience = [("CS".toList, "126".toList), ("MAT".toList, "305".toList)] := by
  have h := get_experience_decodes expTA ["CS126".toList, "MAT305".toList]
    (by decide) (by decide) (by decide)
  rw [h]
  decide

/- ------------------------------------------------------------------ -/
/- edit_time (claims C4 and C9).                                       -/
/- ------------------------------------------------------------------ -/

theorem buildClassTimes_cons (ta : Nat) (sl : List Str) (e : List Str)
    (rest : List (List Str)) (i : Nat) :
    buildClassTimes ta sl (e :: rest) i =
      match e.get? 0, e.get? 1, sl.get? i with
      | some st, some en, some sem =>
        match buildClassTimes ta sl rest (i + 1) with
        | some cts =>
          some ({ ta := ta
                  start_time := st
                  end_time := en
                  days := ClassTime.join_days (e.drop 2)
                  semester_name := sem } :: cts)
        | none => none
      | _, _, _ => none := rfl

theorem buildClassTimes_some (ta : Nat) (sl : List Str) :
    ∀ (tl : List (List Str)) (i : Nat),
      (∀ e ∈ tl, 2 ≤ e.length) → tl.length + i ≤ sl.length →
      buildClassTimes ta sl tl i = some (mkRows ta tl (sl.drop i)) := by
  intro tl
  induction tl with
  | nil => intro i _ _; rfl
  | cons e rest ih =>
    intro i hwf hlen
    have he : 2 ≤ e.length := hwf e (List.mem_cons_self e rest)
    rcases e with _ | ⟨a, _ | ⟨b, ds⟩⟩
    · simp at he
    · simp at he
    · have hi : i < sl.length := by
        rw [List.length_cons] at hlen
        omega
      have hget : sl.get? i = some sl[i] := by
        rw [List.get?_eq_getElem?]
        exact List.getElem?_eq_getElem hi
      have hdrop : sl.drop i = sl[i] :: sl.drop (i + 1) := List.drop_eq_getElem_cons hi
      rw [buildClassTimes_cons, hget,
        ih (i + 1) (fun q hq => hwf q (List.mem_cons_of_mem _ hq)) (by
          rw [List.length_cons] at hlen
          omega),
        hdrop]
      rfl

theorem buildClassTimes_none (ta : Nat) (sl : List Str) :
    ∀ (tl : List (List Str)) (i : Nat),
      (∀ e ∈ tl, 2 ≤ e.length) → tl ≠ [] → sl.length < tl.length + i →
      buildClassTimes ta sl tl i = none := by
  intro tl
  induction tl with
  | nil => intro i _ hne _; exact absurd rfl hne
  | cons e rest ih =>
    intro i hwf _ hlen
    have he : 2 ≤ e.length := hwf e (List.mem_cons_self e rest)
    rcases e with _ | ⟨a, _ | ⟨b, ds⟩⟩
    · simp at he
    · simp at he
    · rw [buildClassTimes_cons]
      rw [List.length_cons] at hlen
      by_cases hi : i < sl.length
      · have hrest : rest ≠ [] := by
          intro h
          subst h
          simp at hlen
          omega
        have hget : sl.get? i = some sl[i] := by
          rw [List.get?_eq_getElem?]
          exact List.getElem?_eq_getElem hi
        rw [hget, ih (i + 1) (fun q hq => hwf q (List.mem_cons_of_mem _ hq)) hrest
          (by omega)]
        rfl
      · have hget : sl.get? i = none := by
          rw [List.get?_eq_getElem?]
          exact List.getElem?_eq_none (by omega)
        rw [hget]
        rfl

theorem delete_times_unfold (av : Availability) (db : List ClassTime) :
    av.delete_times db =
      ({av with class_times := []}, db.filter (fun ct => decide (ct.ta ≠ av.ta))) := by
  show (({av with class_times := (removeAllTimes av.class_times av.class_times)},
    db.filter (fun ct => decide (ct.ta ≠ av.ta))) : Availability × List ClassTime) = _
  rw [removeAllTimes_eq_nil av.class_times av.class_times (fun t ht => ht)]

/-- Claim C4: with `time_list` and `semester_list` of equal length (entries
carrying at least start and end), `edit_time` first deletes every ClassTime
owned by the TA and then creates exactly one ClassTime per entry whose
`days` is the comma-join of the entry's tail from index 2 and whose
`semester_name` is the semester label at the same index; with the empty
list it leaves zero ClassTimes for the TA. -/
theorem edit_time_replaces (av : Availability) (db : List ClassTime)
    (tl : List (List Str)) (sl : List Str)
    (hlen : tl.length = sl.length) (hwf : ∀ e ∈ tl, 2 ≤ e.length) :
    av.edit_time db tl sl =
      some ({av with class_times := mkRows av.ta tl sl},
            db.filter (fun ct => decide (ct.ta ≠ av.ta)) ++ mkRows av.ta tl sl) ∧
    (mkRows av.ta tl sl).length = tl.length ∧
    ∀ ct ∈ mkRows av.ta tl sl, ct.ta = av.ta := by
  have hbuild : buildClassTimes av.ta sl tl 0 = some (mkRows av.ta tl sl) := by
    have h := buildClassTimes_some av.ta sl tl 0 hwf (by omega)
    simpa using h
  refine ⟨?_, ?_, ?_⟩
  · unfold Availability.edit_time
    rw [delete_times_unfold, hbuild]
    rfl
  · unfold mkRows
    rw [List.length_map, List.length_zip]
    omega
  · intro ct hct
    unfold mkRows at hct
    obtain ⟨pr, _, rfl⟩ := List.mem_map.1 hct
    rfl

/-- Witness for claim C4: two entries and two labels on an empty table. -/
theorem edit_time_replaces_witness :
    Availability.edit_time avA [] twoTimes twoSems =
      some ({avA with class_times := mkRows avA.ta twoTimes twoSems},
        ([] : List ClassTime).filter (fun ct => decide (ct.ta ≠ avA.ta)) ++
          mkRows avA.ta twoTimes twoSems) ∧
    (mkRows avA.ta twoTimes twoSems).length = twoTimes.length ∧
    ∀ ct ∈ mkRows avA.ta twoTimes twoSems, ct.ta = avA.ta :=
  edit_time_replaces avA [] twoTimes twoSems (by decide) (by decide)

/-- Claim C9, counterexample: `edit_time` called with `time_list = []` and a
one-element `semester_list` — the lengths differ, yet the call completes
without any index error instead of failing. -/
theorem edit_time_mismatch_completes :
    Availability.edit_time avA [] [] ["FAL2022".toList] ≠ none ∧
    ([] : List (List Str)).length ≠ ["FAL2022".toList].length := by
  refine ⟨?_, ?_⟩ <;> decide

/-- Claim C9, amended: when the two lists have equal length (and each entry
has at least its start and end fields) every positional access into
`semester_list` is in bounds and the call completes; when `time_list` is
LONGER than `semester_list` the call fails with an out-of-bounds index
error; a longer `semester_list`, however, is accepted silently (only a
prefix is consumed), as the counterexample shows. -/
theorem edit_time_length_precondition :
    (∀ (av : Availability) (db : List ClassTime) (tl : List (List Str)) (sl : List Str),
      (∀ e ∈ tl, 2 ≤ e.length) → tl.length = sl.length →
      (av.edit_time db tl sl).isSome = true) ∧
    (∀ (av : Availability) (db : List ClassTime) (tl : List (List Str)) (sl : List Str),
      (∀ e ∈ tl, 2 ≤ e.length) → sl.length < tl.length →
      av.edit_time db tl sl = none) := by
  constructor
  · intro av db tl sl hwf hlen
    have hbuild := buildClassTimes_some av.ta sl tl 0 hwf (by omega)
    unfold Availability.edit_time
    rw [hbuild]
    rfl
  · intro av db tl sl hwf hlen
    have hne : tl ≠ [] := by
      intro h
      subst h
      simp at hlen
    have hbuild := buildClassTimes_none av.ta sl tl 0 hwf hne (by omega)
    unfold Availability.edit_time
    rw [hbuild]

/-- Witness for the amended claim C9: equal lengths complete; two entries
against one label fail with the index error. -/
theorem edit_time_length_precondition_witness :
    (Availability.edit_time avA [] twoTimes twoSems).isSome = true ∧
    Availability.edit_time avA [] twoTimes ["FAL2022".toList] = none :=
  ⟨edit_time_length_precondition.1 avA [] twoTimes twoSems (by decide) (by decide),
   edit_time_length_precondition.2 avA [] twoTimes ["FAL2022".toList]
     (by decide) (by decide)⟩

/- ------------------------------------------------------------------ -/
/- Semester resolution and update_semesters (claims C3 and C8).        -/
/- ------------------------------------------------------------------ -/

theorem semesterGet_eq_some (db : List Semester) (y : Nat) (t : Str) (s : Semester)
    (h : semesterGet db y t = some s) :
    s ∈ db ∧ s.year = y ∧ s.semester_time = t ∧
      ∀ x ∈ db, x.year = y → x.semester_time = t → x = s := by
  unfold semesterGet at h
  cases hf : db.filter (fun x => decide (x.year = y ∧ x.semester_time = t)) with
  | nil => rw [hf] at h; exact Option.noConfusion h
  | cons a tail =>
    cases tail with
    | nil =>
      rw [hf] at h
      have has : a = s := Option.some.inj h
      subst has
      have hmem : a ∈ db.filter (fun x => decide (x.year = y ∧ x.semester_time = t)) := by
        rw [hf]
        exact List.mem_cons_self a []
      have h1 := List.mem_filter.1 hmem
      have h2 : a.year = y ∧ a.semester_time = t := by simpa using h1.2
      refine ⟨h1.1, h2.1, h2.2, ?_⟩
      intro x hx hxy hxt
      have hx2 : x ∈ db.filter (fun x => decide (x.year = y ∧ x.semester_time = t)) :=
        List.mem_filter.2 ⟨hx, by simp [hxy, hxt]⟩
      rw [hf] at hx2
      exact List.mem_singleton.1 hx2
    | cons b tail2 => rw [hf] at h; exact Option.noConfusion h

theorem resolveSemester_eq_of_parse (db : List Semester) (l : Str) (y : Nat)
    (hc : charsToNat? (l.drop 3) = some y) :
    resolveSemester db l = semesterGet db y (l.take 3) := by
  unfold resolveSemester
  rw [hc]

theorem resolveSemester_str (db : List Semester) (s : Semester)
    (h3 : s.semester_time.length = 3) :
    resolveSemester db s.str = semesterGet db s.year s.semester_time := by
  have hdrop : (Semester.str s).drop 3 = natToChars s.year := by
    unfold Semester.str
    rw [← h3]
    exact List.drop_left _ _
  have htake : (Semester.str s).take 3 = s.semester_time := by
    unfold Semester.str
    rw [← h3]
    exact List.take_left _ _
  rw [resolveSemester_eq_of_parse db s.str s.year
    (by rw [hdrop, charsToNat?_natToChars]), htake]

theorem resolveSemester_mem (db : List Semester) (l : Str) (s : Semester)
    (h : resolveSemester db l = some s) : s ∈ db := by
  unfold resolveSemester at h
  cases hc : charsToNat? (l.drop 3) with
  | none => rw [hc] at h; exact Option.noConfusion h
  | some y =>
    rw [hc] at h
    exact (semesterGet_eq_some db y (l.take 3) s h).1

theorem is_assigned_iff (ta : TA) (s : Semester) :
    ta.is_assigned_to_semester s = true ↔ s ∈ ta.assigned_semesters := by
  unfold TA.is_assigned_to_semester
  rw [List.any_eq_true]
  constructor
  · rintro ⟨x, hx, hxs⟩
    have hxs' : x = s := by simpa using hxs
    rw [← hxs']
    exact hx
  · intro hs
    exact ⟨s, hs, by simp⟩

theorem addSemLoop_cons (db : List Semester) (ta : TA) (l : Str) (rest : List Str) :
    addSemLoop db ta (l :: rest) =
      match resolveSemester db l with
      | none => none
      | some semester =>
        addSemLoop db
          (if ta.is_assigned_to_semester semester then ta
           else {ta with assigned_semesters := ta.assigned_semesters ++ [semester]})
          rest := rfl

theorem addSemLoop_spec (db : List Semester) :
    ∀ (labels : List Str) (ta : TA),
      (∀ l ∈ labels, (resolveSemester db l).isSome = true) →
      ∃ ta', addSemLoop db ta labels = some ta' ∧
        ta'.id = ta.id ∧
        ∀ s : Semester, (s ∈ ta'.assigned_semesters ↔
          (s ∈ ta.assigned_semesters ∨ ∃ l ∈ labels, resolveSemester db l = some s)) := by
  intro labels
  induction labels with
  | nil =>
    intro ta _
    exact ⟨ta, rfl, rfl, fun s => by simp⟩
  | cons l rest ih =>
    intro ta hres
    have hl : (resolveSemester db l).isSome = true := hres l (List.mem_cons_self l rest)
    have hrest : ∀ x ∈ rest, (resolveSemester db x).isSome = true :=
      fun x hx => hres x (List.mem_cons_of_mem l hx)
    cases hr : resolveSemester db l with
    | none =>
      rw [hr] at hl
      exact absurd hl (by simp)
    | some s0 =>
      by_cases hin : ta.is_assigned_to_semester s0 = true
      · obtain ⟨ta', heq, hid, hiff⟩ := ih ta hrest
        have hs0 : s0 ∈ ta.assigned_semesters := (is_assigned_iff ta s0).1 hin
        refine ⟨ta', ?_, hid, ?_⟩
        · rw [addSemLoop_cons, hr]
          show addSemLoop db (if ta.is_assigned_to_semester s0 then ta else {ta with assigned_semesters := ta.assigned_semesters ++ [s0]}) rest = some ta'
          rw [if_pos hin]
          exact heq
        · intro s
          rw [hiff s]
          constructor
          · rintro (h | ⟨l', hl', hr'⟩)
            · exact Or.inl h
            · exact Or.inr ⟨l', List.mem_cons_of_mem l hl', hr'⟩
          · rintro (h | ⟨l', hl', hr'⟩)
            · exact Or.inl h
            · rcases List.mem_cons.1 hl' with heq' | hl''
              · subst heq'
                rw [hr] at hr'
                have hss : s0 = s := Option.some.inj hr'
                subst hss
                exact Or.inl hs0
              · exact Or.inr ⟨l', hl'', hr'⟩
      · obtain ⟨ta', heq, hid, hiff⟩ :=
          ih {ta with assigned_semesters := ta.assigned_semesters ++ [s0]} hrest
        refine ⟨ta', ?_, hid, ?_⟩
        · rw [addSemLoop_cons, hr]
          show addSemLoop db (if ta.is_assigned_to_semester s0 then ta else {ta with assigned_semesters := ta.assigned_semesters ++ [s0]}) rest = some ta'
          rw [if_neg hin]
          exact heq
        · intro s
          rw [hiff s]
          constructor
          · rintro (h | ⟨l', hl', hr'⟩)
            · rcases List.mem_append.1 h with h1 | h1
              · exact Or.inl h1
              · rw [List.mem_singleton.1 h1]
                exact Or.inr ⟨l, List.mem_cons_self l rest, hr⟩
            · exact Or.inr ⟨l', List.mem_cons_of_mem l hl', hr'⟩
          · rintro (h | ⟨l', hl', hr'⟩)
            · exact Or.inl (List.mem_append.2 (Or.inl h))
            · rcases List.mem_cons.1 hl' with heq' | hl''
              · subst heq'
                rw [hr] at hr'
                have hss : s0 = s := Option.some.inj hr'
                subst hss
                exact Or.inl (List.mem_append.2 (Or.inr (List.mem_singleton.2 rfl)))
              · exact Or.inr ⟨l', hl'', hr'⟩

theorem update_semesters_eq (ta : TA) (db : List Semester) (labels : List Str) (ta1 : TA)
    (h : addSemLoop db ta labels = some ta1) :
    ta.update_semesters db labels = some {ta1 with assigned_semesters :=
      (ta1.assigned_semesters.filter (fun s => decide (s.str ∈ labels)))} := by
  unfold TA.update_semesters
  rw [h]

/-- Claim C3: when every label is the canonical rendering of an existing
Semester row (the first three characters its session code, the rest its
year) and the TA's currently assigned semesters are database rows, after
`update_semesters` the TA's assigned set is exactly the set of semesters
the labels resolve to: already-assigned labels are not duplicated and every
previously assigned semester whose rendering is absent from the list is
removed. -/
theorem update_semesters_exact (ta : TA) (db : List Semester) (labels : List Str)
    (hsub : ∀ s ∈ ta.assigned_semesters, s ∈ db)
    (hlen3 : ∀ s ∈ db, s.semester_time.length = 3)
    (hres : ∀ l ∈ labels, ∃ s, resolveSemester db l = some s ∧ s.str = l) :
    ∃ ta', ta.update_semesters db labels = some ta' ∧ ta'.id = ta.id ∧
      ∀ s : Semester, (s ∈ ta'.assigned_semesters ↔
        ∃ l ∈ labels, resolveSemester db l = some s) := by
  have hsome : ∀ l ∈ labels, (resolveSemester db l).isSome = true := by
    intro l hl
    obtain ⟨s, hs, _⟩ := hres l hl
    rw [hs]
    rfl
  obtain ⟨ta1, heq, hid, hiff⟩ := addSemLoop_spec db labels ta hsome
  refine ⟨_, update_semesters_eq ta db labels ta1 heq, hid, ?_⟩
  intro s
  constructor
  · intro hmem
    have hmem' := List.mem_filter.1 hmem
    have hstr : s.str ∈ labels := by simpa using hmem'.2
    have hdb : s ∈ db := by
      rcases (hiff s).1 hmem'.1 with h | ⟨l', _, hr'⟩
      · exact hsub s h
      · exact resolveSemester_mem db l' s hr'
    obtain ⟨s'', hr'', hstr''⟩ := hres s.str hstr
    have hresolve : resolveSemester db s.str = semesterGet db s.year s.semester_time :=
      resolveSemester_str db s (hlen3 s hdb)
    rw [hresolve] at hr''
    obtain ⟨_, _, _, huniq⟩ := semesterGet_eq_some db s.year s.semester_time s'' hr''
    have hss : s = s'' := huniq s hdb rfl rfl
    refine ⟨s.str, hstr, ?_⟩
    rw [hresolve, hr'', hss]
  · rintro ⟨l, hl, hr⟩
    obtain ⟨s', hr', hstr'⟩ := hres l hl
    rw [hr] at hr'
    have hss : s = s' := Option.some.inj hr'
    apply List.mem_filter.2
    refine ⟨(hiff s).2 (Or.inr ⟨l, hl, hr⟩), ?_⟩
    simp only [decide_eq_true_eq]
    rw [hss, hstr']
    exact hl

/-- Witness for claim C3: updating a blank TA with the labels "SPR2022" and
"FAL2022" over the two-row semester table. -/
theorem update_semesters_exact_witness :
    ∃ ta', TA.update_semesters ta0 dbSem0 ["SPR2022".toList, "FAL2022".toList] = some ta' ∧
      ta'.id = ta0.id ∧
      ∀ s : Semester, (s ∈ ta'.assigned_semesters ↔
        ∃ l ∈ ["SPR2022".toList, "FAL2022".toList], resolveSemester dbSem0 l = some s) := by
  apply update_semesters_exact ta0 dbSem0 _ (by decide) (by decide)
  intro l hl
  simp only [List.mem_cons, List.not_mem_nil, or_false] at hl
  rcases hl with rfl | rfl
  · exact ⟨⟨2022, "SPR".toList⟩, by decide, by decide⟩
  · exact ⟨⟨2022, "FAL".toList⟩, by decide, by decide⟩

theorem addSemLoop_none_of_fail (db : List Semester) :
    ∀ (labels : List Str) (ta : TA) (l : Str),
      l ∈ labels → resolveSemester db l = none → addSemLoop db ta labels = none := by
  intro labels
  induction labels with
  | nil =>
    intro ta l h _
    exact absurd h (List.not_mem_nil l)
  | cons l0 rest ih =>
    intro ta l hl hfail
    rw [addSemLoop_cons]
    cases hr : resolveSemester db l0 with
    | none => rfl
    | some s0 =>
      rcases List.mem_cons.1 hl with heq | hl'
      · subst heq
        rw [hr] at hfail
        exact Option.noConfusion hfail
      · exact ih _ l hl' hfail

/-- Claim C8: a Semester lookup that matches no record produces the distinct
"not found" outcome `none` — `get_assigned_labs` returns it directly, and
`update_semesters` aborts with it when any label fails to resolve — and
that outcome differs from every successful result, in particular from a
successful lookup returning an empty lab list. -/
theorem semester_lookup_not_found (ta : TA) (db : List Semester) (time : Str) (year : Nat)
    (labels : List Str) (l : Str)
    (hget : semesterGet db year time = none)
    (hl : l ∈ labels) (hfail : resolveSemester db l = none) :
    ta.get_assigned_labs db time year = none ∧
    (∀ labs : List Lab, ta.get_assigned_labs db time year ≠ some labs) ∧
    ta.update_semesters db labels = none ∧
    (∀ ta2 : TA, ta.update_semesters db labels ≠ some ta2) := by
  have h1 : ta.get_assigned_labs db time year = none := by
    unfold TA.get_assigned_labs
    rw [hget]
  have h2 : ta.update_semesters db labels = none := by
    unfold TA.update_semesters
    rw [addSemLoop_none_of_fail db labels ta l hl hfail]
  refine ⟨h1, ?_, h2, ?_⟩
  · intro labs hcontra
    rw [h1] at hcontra
    exact Option.noConfusion hcontra
  · intro ta2 hcontra
    rw [h2] at hcontra
    exact Option.noConfusion hcontra

/-- Witness for claim C8: lookups against an empty semester table. -/
theorem semester_lookup_not_found_witness :
    TA.get_assigned_labs ta0 [] "SPR".toList 2022 = none ∧
    TA.get_assigned_labs ta0 [] "SPR".toList 2022 ≠ some [] ∧
    TA.update_semesters ta0 [] ["SPR2022".toList] = none := by
  have h := semester_lookup_not_found ta0 [] "SPR".toList 2022
    ["SPR2022".toList] "SPR2022".toList (by decide) (by decide) (by decide)
  exact ⟨h.1, h.2.1 [], h.2.2.1⟩
